import Mathlib

/-!
# SecureReaderWriter: readers-writers protocol with an authorization registry

Shallow embedding of `reader_writer.c`.

* The password table (`password_table`, `password_count`) with `add_password`
  and `is_authorized` is embedded as pure state-passing functions.
* The threads `reader()` and `writer()` are embedded as a program-counter
  machine; a global state steps by letting one thread execute one atomic
  action (a semaphore wait or signal, a mutex lock, the body of a registry call
  up to its unlock, an update or test of `read_count`, an access to `BUFFER`).

Modelling choices:

* a semaphore is its counter: a wait is enabled when the counter is positive
  and decrements it, a signal increments it;
* `password_mutex` is a boolean; the code between a lock and the matching
  unlock has no blocking call and is one action;
* `read_count` is an unbounded integer; it is shown to stay between 0 and the
  number of threads, so the `int` of the source does not overflow;
* `rand()` is a parameter of the step; `sleep` is not an action;
* the threads of a test case are all present in the initial state, at the
  first line of their function: a thread `main` has not created yet is a
  thread that has not moved.
-/

namespace SecureReaderWriter

/-! ## Constants -/

/-- The constant `#define MAX_THREADS 9`. -/
def MAX_THREADS : Nat := 9

/-- The constant `#define OPERATIONS 5`. -/
def OPERATIONS : Nat := 5

/-! ## The password table -/

/-- The globals `password_table[2 * MAX_THREADS]` and `password_count`.
The array is a list (of length `2 * MAX_THREADS` in every well-formed state),
its entries are `unsigned long` values, only ever compared for equality.
`password_count` is an `int` that the code only sets to 0 and increments below
`2 * MAX_THREADS`, so it is a natural number here. -/
structure Registry where
  password_table : List Nat
  password_count : Nat
deriving DecidableEq, Repr

/-- The array has its declared size `2 * MAX_THREADS`. -/
def Registry.WellSized (r : Registry) : Prop :=
  r.password_table.length = 2 * MAX_THREADS

instance (r : Registry) : Decidable r.WellSized := by
  unfold Registry.WellSized; infer_instance

/-- The scan `for(int i = ..; i < password_count; i++) if(password_table[i] == hash)`
shared by `add_password` and `is_authorized`: `n` iterations remain and the
loop variable is `i`; the result says whether the `if` fired. -/
def scan_table (table : List Nat) (hash : Nat) : Nat → Nat → Bool
  | 0, _ => false
  | n + 1, i => if table.getD i 0 = hash then true else scan_table table hash n (i + 1)

/-- The function `add_password`, between its lock and unlock of `password_mutex`:
returns the new table and what was written to `stderr`. -/
def add_password (r : Registry) (hash : Nat) : Registry × List String :=
  if scan_table r.password_table hash r.password_count 0 then
    (r, [])
  else if r.password_count < 2 * MAX_THREADS then
    ({ password_table := r.password_table.set r.password_count hash,
       password_count := r.password_count + 1 }, [])
  else
    (r, ["Password table full!\n"])

/-- The function `is_authorized`, between its lock and unlock of `password_mutex`:
returns `found` and the (untouched) table. -/
def is_authorized (r : Registry) (hash : Nat) : Int × Registry :=
  let found : Int := if scan_table r.password_table hash r.password_count 0 then 1 else 0
  (found, r)

/-- The reset in `main` at the start of a test case: `password_count = 0;`
(the array is not cleared). -/
def reset_registry (r : Registry) : Registry :=
  { r with password_count := 0 }

/-- An identity is stored: it equals `password_table[i]` for some `i < password_count`. -/
def Registry.Stored (r : Registry) (hash : Nat) : Prop :=
  ∃ i, i < r.password_count ∧ r.password_table.getD i 0 = hash

/-- The operations the driver and the threads perform on the table. -/
inductive RegistryOp where
  | add (hash : Nat)
  | reset
deriving DecidableEq, Repr

/-- Effect of one operation on the table. -/
def RegistryOp.apply (r : Registry) : RegistryOp → Registry
  | .add hash => (add_password r hash).1
  | .reset => reset_registry r

/-- Effect of a sequence of operations. -/
def run_ops (r : Registry) (ops : List RegistryOp) : Registry :=
  ops.foldl RegistryOp.apply r

/-- The first `password_count` entries are pairwise distinct. -/
def Registry.Distinct (r : Registry) : Prop :=
  ∀ i j, i < r.password_count → j < r.password_count →
    r.password_table.getD i 0 = r.password_table.getD j 0 → i = j

/-! ## The threads -/

/-- The field `role` of `thread_info_t`, and which of `reader()`, `writer()` the thread runs. -/
inductive Role where
  | reader
  | writer
deriving DecidableEq, Repr

/-- Program points of `reader()` and `writer()`: the thread is about to execute
the named action. Registration and the authorization gate are the same code in
both functions. -/
inductive Pc where
  /-- `if(!info->is_dummy)` before the loop (lines 82, 130). -/
  | start
  /-- In `add_password`: `pthread_mutex_lock(&password_mutex)` (line 38). -/
  | reg_lock
  /-- In `add_password`: scan, insert or report, unlock (lines 40-52). -/
  | reg_body
  /-- The loop test `i < OPERATIONS` and `!info->is_dummy` (lines 86-88, 134-136). -/
  | loop_head
  /-- In `is_authorized`: `pthread_mutex_lock(&password_mutex)` (line 58). -/
  | auth_lock
  /-- In `is_authorized`: scan, unlock, return; then the test of the result and
  the unauthorized exit (lines 59-66 and 88-91, 136-139). -/
  | auth_body
  /-- Reader entry: wait on `read_count_access` (line 94). -/
  | r_wait_count
  /-- Reader entry: `read_count++` (line 95). -/
  | r_incr
  /-- Reader entry: `if(read_count == 1)` (line 96). -/
  | r_test_first
  /-- Reader entry: wait on `resource_access` (line 97). -/
  | r_wait_resource
  /-- Reader entry: signal `read_count_access` (line 99). -/
  | r_signal_count
  /-- Reader critical section: read `BUFFER` and print (lines 102-107). -/
  | r_read
  /-- Reader exit: wait on `read_count_access` (line 112). -/
  | r_exit_wait
  /-- Reader exit: `read_count--` (line 113). -/
  | r_decr
  /-- Reader exit: `if(read_count == 0)` (line 114). -/
  | r_test_last
  /-- Reader exit: signal `resource_access` (line 115). -/
  | r_signal_resource
  /-- Reader exit: signal `read_count_access`, then `i++` (lines 117, 86). -/
  | r_exit_signal
  /-- Writer entry: wait on `resource_access` (line 142). -/
  | w_wait
  /-- Writer critical section: `BUFFER = rand() % 10000` (line 145). -/
  | w_write
  /-- Writer critical section: print `BUFFER` (lines 147-152). -/
  | w_print
  /-- Writer exit: signal `resource_access`, then `i++` (lines 157, 134). -/
  | w_signal
  /-- After the final `pthread_exit(NULL)` (lines 122, 162). -/
  | done
  /-- After the `pthread_exit(NULL)` of the unauthorized exit (lines 90, 138). -/
  | unauthorized
deriving DecidableEq, Repr

/-- A thread: its `thread_info_t` (`id`, `is_dummy`, `role`), the local `hash`
(the value of `hash_pthread_t(pthread_self())`), its program point and the loop
variable `i`. -/
structure Thread where
  id : Nat
  is_dummy : Bool
  role : Role
  hash : Nat
  pc : Pc
  i : Nat
deriving DecidableEq, Repr

/-- One line of the table printed on `stdout` (lines 102-107, 147-152). -/
structure Observation where
  id : Nat
  hash : Nat
  is_dummy : Bool
  role : Role
  value : Int
deriving DecidableEq, Repr

/-- The global variables and the two output streams. A semaphore is its counter;
the mutex is `true` when locked. -/
structure Shared where
  BUFFER : Int
  registry : Registry
  password_mutex : Bool
  resource_access : Nat
  read_count_access : Nat
  read_count : Int
  stdout : List Observation
  stderr : List String
deriving DecidableEq, Repr

/-- First program point of the access phase of a role. -/
def entry_pc : Role → Pc
  | .reader => .r_wait_count
  | .writer => .w_wait

/-- The message of the unauthorized exit (lines 89, 137). -/
def unauthorized_message (t : Thread) : String :=
  (match t.role with
    | .reader => "Reader Thread "
    | .writer => "Writer Thread ") ++ toString t.id ++ ": Unauthorized access!\n"

/-- One atomic action of a thread in `reader()` or `writer()`; `rnd` is the
value `rand()` returns if the action calls it. `none`: the thread cannot move
(it is blocked on a semaphore or on the mutex, or it has exited). -/
def step_thread (g : Shared) (t : Thread) (rnd : Nat) : Option (Shared × Thread) :=
  match t.pc with
  | .start =>
    some (g, { t with pc := if t.is_dummy then .loop_head else .reg_lock })
  | .reg_lock =>
    if g.password_mutex then none
    else some ({ g with password_mutex := true }, { t with pc := .reg_body })
  | .reg_body =>
    some ({ g with registry := (add_password g.registry t.hash).1,
                   stderr := g.stderr ++ (add_password g.registry t.hash).2,
                   password_mutex := false },
          { t with pc := .loop_head })
  | .loop_head =>
    if t.i < OPERATIONS then
      some (g, { t with pc := if t.is_dummy then entry_pc t.role else .auth_lock })
    else
      some (g, { t with pc := .done })
  | .auth_lock =>
    if g.password_mutex then none
    else some ({ g with password_mutex := true }, { t with pc := .auth_body })
  | .auth_body =>
    if (is_authorized g.registry t.hash).1 = 0 then
      some ({ g with registry := (is_authorized g.registry t.hash).2,
                     stderr := g.stderr ++ [unauthorized_message t],
                     password_mutex := false },
            { t with pc := .unauthorized })
    else
      some ({ g with registry := (is_authorized g.registry t.hash).2,
                     password_mutex := false },
            { t with pc := entry_pc t.role })
  | .r_wait_count =>
    if g.read_count_access = 0 then none
    else some ({ g with read_count_access := g.read_count_access - 1 }, { t with pc := .r_incr })
  | .r_incr =>
    some ({ g with read_count := g.read_count + 1 }, { t with pc := .r_test_first })
  | .r_test_first =>
    some (g, { t with pc := if g.read_count = 1 then .r_wait_resource else .r_signal_count })
  | .r_wait_resource =>
    if g.resource_access = 0 then none
    else some ({ g with resource_access := g.resource_access - 1 },
               { t with pc := .r_signal_count })
  | .r_signal_count =>
    some ({ g with read_count_access := g.read_count_access + 1 }, { t with pc := .r_read })
  | .r_read =>
    some ({ g with stdout := g.stdout ++ [⟨t.id, t.hash, t.is_dummy, .reader, g.BUFFER⟩] },
          { t with pc := .r_exit_wait })
  | .r_exit_wait =>
    if g.read_count_access = 0 then none
    else some ({ g with read_count_access := g.read_count_access - 1 }, { t with pc := .r_decr })
  | .r_decr =>
    some ({ g with read_count := g.read_count - 1 }, { t with pc := .r_test_last })
  | .r_test_last =>
    some (g, { t with pc := if g.read_count = 0 then .r_signal_resource else .r_exit_signal })
  | .r_signal_resource =>
    some ({ g with resource_access := g.resource_access + 1 }, { t with pc := .r_exit_signal })
  | .r_exit_signal =>
    some ({ g with read_count_access := g.read_count_access + 1 },
          { t with pc := .loop_head, i := t.i + 1 })
  | .w_wait =>
    if g.resource_access = 0 then none
    else some ({ g with resource_access := g.resource_access - 1 }, { t with pc := .w_write })
  | .w_write =>
    some ({ g with BUFFER := ((rnd % 10000 : Nat) : Int) }, { t with pc := .w_print })
  | .w_print =>
    some ({ g with stdout := g.stdout ++ [⟨t.id, t.hash, t.is_dummy, .writer, g.BUFFER⟩] },
          { t with pc := .w_signal })
  | .w_signal =>
    some ({ g with resource_access := g.resource_access + 1 },
          { t with pc := .loop_head, i := t.i + 1 })
  | .done => none
  | .unauthorized => none

/-- A state of the interleaving model: the globals and the threads. -/
structure State where
  shared : Shared
  threads : List Thread
deriving DecidableEq, Repr

/-- Thread number `k` executes one atomic action. -/
def step (s : State) (k : Nat) (rnd : Nat) : Option State :=
  match s.threads[k]? with
  | none => none
  | some t =>
    match step_thread s.shared t rnd with
    | none => none
    | some (g, t') => some { shared := g, threads := s.threads.set k t' }

/-- Runs a schedule: a list of (thread number, value of `rand()`). -/
def run_schedule (s : State) : List (Nat × Nat) → Option State
  | [] => some s
  | (k, rnd) :: rest =>
    match step s k rnd with
    | none => none
    | some s' => run_schedule s' rest

/-- States reachable from `s0` by atomic actions of the threads. -/
inductive Reachable (s0 : State) : State → Prop where
  | start : Reachable s0 s0
  | next {s s' : State} (k rnd : Nat) : Reachable s0 s → step s k rnd = some s' →
      Reachable s0 s'

/-- The state when the threads of a test case start: `read_count = 0`, both
semaphores at 1, the mutex unlocked, every thread at the beginning of its
function. The table, `BUFFER` and the output streams are arbitrary. -/
def Initial (s : State) : Prop :=
  s.shared.read_count = 0 ∧ s.shared.resource_access = 1 ∧
  s.shared.read_count_access = 1 ∧ s.shared.password_mutex = false ∧
  ∀ t ∈ s.threads, t.pc = Pc.start ∧ t.i = 0

instance (s : State) : Decidable (Initial s) := by
  unfold Initial; infer_instance

/-- The thread has exited. -/
def Pc.terminated : Pc → Bool
  | .done | .unauthorized => true
  | _ => false

/-- Thread `k` has an enabled step. -/
def Enabled (s : State) (k : Nat) : Prop := (step s k 0).isSome = true

instance (s : State) (k : Nat) : Decidable (Enabled s k) := by
  unfold Enabled; infer_instance

/-- The thread holds `read_count_access`: it passed a wait on it and has not yet
signalled it. -/
def Pc.holds_count : Pc → Bool
  | .r_incr | .r_test_first | .r_wait_resource | .r_signal_count
  | .r_decr | .r_test_last | .r_signal_resource | .r_exit_signal => true
  | _ => false

/-- The reader has executed `read_count++` and not yet `read_count--`. -/
def Pc.counted : Pc → Bool
  | .r_test_first | .r_wait_resource | .r_signal_count
  | .r_read | .r_exit_wait | .r_decr => true
  | _ => false

/-- The writer is inside its critical section: its wait on `resource_access`
returned and it has not yet signalled it. -/
def Pc.writer_cs : Pc → Bool
  | .w_write | .w_print | .w_signal => true
  | _ => false

/-- The reader is inside its critical section: it finished its entry section
and has not started its exit section. -/
def Pc.reader_cs : Pc → Bool
  | .r_read | .r_exit_wait => true
  | _ => false

/-- The thread holds `password_mutex`. -/
def Pc.holds_mutex : Pc → Bool
  | .reg_body | .auth_body => true
  | _ => false

/-- The thread is at a wait on `resource_access`. -/
def Pc.waits_resource : Pc → Bool
  | .r_wait_resource | .w_wait => true
  | _ => false

/-- Number of threads whose program point satisfies `P`. -/
def cnt (P : Pc → Bool) (l : List Thread) : Nat := l.countP (fun t => P t.pc)

/-- The thread holds `read_count_access` at a program point other than the two
tests and the wait and signal on `resource_access`. -/
def Pc.holds_plain : Pc → Bool
  | .r_incr | .r_signal_count | .r_decr | .r_exit_signal => true
  | _ => false

/-- The thread is at program point `p`. -/
def Pc.is (p : Pc) : Pc → Bool := fun q => decide (q = p)

/-- The protocol invariant, on the globals and the numbers of threads
`m` holding `password_mutex`, `h` holding `read_count_access`, `c` counted in
`read_count`, `w` writers in their critical section, `n1`, `n2`, `n3`, `n4`
readers at the test of line 96, the wait of line 97, the test of line 114 and
the signal of line 115, and `n5` readers holding `read_count_access` elsewhere.

`resource_access` is taken by a writer in its critical section or by the reader
group; the group's hold starts with the first reader's wait (line 97) and ends
with the last reader's signal (line 115), both executed while holding
`read_count_access`. -/
def InvN (g : Shared) (m h c w n1 n2 n3 n4 n5 : Nat) : Prop :=
  g.password_mutex.toNat = m ∧
  g.read_count_access + h = 1 ∧
  g.read_count = (c : Int) ∧
  n1 + n2 + n3 + n4 + n5 = h ∧
  (1 ≤ n1 → (2 ≤ g.read_count → g.resource_access + w = 0) ∧
            (g.read_count ≤ 1 → g.resource_access + w = 1)) ∧
  (1 ≤ n2 → g.read_count = 1 ∧ g.resource_access + w = 1) ∧
  (1 ≤ n3 → g.resource_access + w = 0) ∧
  (1 ≤ n4 → g.read_count = 0 ∧ g.resource_access + w = 0) ∧
  (n1 + n2 + n3 + n4 = 0 → (1 ≤ g.read_count → g.resource_access + w = 0) ∧
                           (g.read_count ≤ 0 → g.resource_access + w = 1))

/-- The protocol invariant of a state of the interleaving model. -/
def Inv (s : State) : Prop :=
  InvN s.shared (cnt Pc.holds_mutex s.threads) (cnt Pc.holds_count s.threads)
    (cnt Pc.counted s.threads) (cnt Pc.writer_cs s.threads)
    (cnt (Pc.is .r_test_first) s.threads) (cnt (Pc.is .r_wait_resource) s.threads)
    (cnt (Pc.is .r_test_last) s.threads) (cnt (Pc.is .r_signal_resource) s.threads)
    (cnt Pc.holds_plain s.threads)

/-- The thread is at a lock of `password_mutex`. -/
def Pc.waits_mutex : Pc → Bool
  | .reg_lock | .auth_lock => true
  | _ => false

/-- The thread is at a wait on `read_count_access`. -/
def Pc.waits_count : Pc → Bool
  | .r_wait_count | .r_exit_wait => true
  | _ => false

/-- A thread holds `read_count_access` while it is blocked waiting on
`resource_access`. -/
def HoldsCountWhileBlocked (s : State) : Prop :=
  ∃ (k : Nat) (t : Thread), s.threads[k]? = some t ∧ t.pc.holds_count = true ∧
    t.pc.waits_resource = true ∧ s.shared.resource_access = 0

/-- `read_count > 0` while a writer holds `resource_access`. -/
def ReadersCountedWhileWriting (s : State) : Prop :=
  0 < s.shared.read_count ∧
    ∃ (k : Nat) (t : Thread), s.threads[k]? = some t ∧ t.role = Role.writer ∧
      t.pc.writer_cs = true

/-- A test case with one dummy writer and one dummy reader, as `main` starts
them: the table zeroed and empty, `BUFFER = 0`, `read_count = 0`, both
semaphores at 1. -/
def demo_initial : State :=
  { shared := { BUFFER := 0, registry := ⟨List.replicate 18 0, 0⟩, password_mutex := false,
                resource_access := 1, read_count_access := 1, read_count := 0,
                stdout := [], stderr := [] },
    threads := [⟨1, true, .writer, 7, .start, 0⟩, ⟨1, true, .reader, 8, .start, 0⟩] }

/-- The writer (thread 0) runs up to its critical section, then the reader
(thread 1) runs its entry section up to the wait of line 97. -/
def demo_schedule : List (Nat × Nat) :=
  [(0, 0), (0, 0), (0, 0), (1, 0), (1, 0), (1, 0), (1, 0), (1, 0)]

/-- The state `demo_schedule` leads to: the writer is inside its critical
section, the reader has incremented `read_count` and is at the wait on
`resource_access`, holding `read_count_access`. -/
def demo_state : State :=
  { shared := { BUFFER := 0, registry := ⟨List.replicate 18 0, 0⟩, password_mutex := false,
                resource_access := 0, read_count_access := 0, read_count := 1,
                stdout := [], stderr := [] },
    threads := [⟨1, true, .writer, 7, .w_write, 0⟩, ⟨1, true, .reader, 8, .r_wait_resource, 0⟩] }

/-- A full table: `password_count = 18`, entries 1 to 18. -/
def full_registry : Registry := ⟨List.range' 1 18, 18⟩

/-- A table with two registered identities, 7 and 8; the rest is left over
from a previous test case. -/
def small_registry : Registry :=
  ⟨[7, 8, 9, 0, 0, 0, 0, 0, 0, 0, 0, 0, 0, 0, 0, 0, 0, 0], 2⟩

/-- The rows of `test_cases` in `main`: (real readers, real writers). -/
def test_cases : List (Nat × Nat) := [(3, 2), (5, 5), (1, 8)]

/-- The threads `main` creates for a test case, in creation order: the real
readers, the real writers, the dummy readers, the dummy writers, each group
numbered from 1. `hash n` is the value of `hash_pthread_t(pthread_self())` in
the `n`-th created thread. -/
def scenario_threads (num_readers num_writers : Nat) (hash : Nat → Nat) : List Thread :=
  (List.range num_readers).map
    (fun i => ⟨i + 1, false, .reader, hash i, .start, 0⟩) ++
  (List.range num_writers).map
    (fun i => ⟨i + 1, false, .writer, hash (num_readers + i), .start, 0⟩) ++
  (List.range num_readers).map
    (fun i => ⟨i + 1, true, .reader, hash (num_readers + num_writers + i), .start, 0⟩) ++
  (List.range num_writers).map
    (fun i => ⟨i + 1, true, .writer,
      hash (num_readers + num_writers + num_readers + i), .start, 0⟩)

/-- The thread has returned from its `add_password` call (or skipped it). -/
def Pc.registered : Pc → Bool
  | .start | .reg_lock | .reg_body => false
  | _ => true

/-- Program points inside `add_password` and `is_authorized`, and the
unauthorized exit: only real threads get there. -/
def Pc.gated : Pc → Bool
  | .reg_lock | .reg_body | .auth_lock | .auth_body | .unauthorized => true
  | _ => false

/-- The thread is real (`is_dummy == 0`). -/
def Thread.real (t : Thread) : Bool := !t.is_dummy

/-- The thread is real and has returned from `add_password`. -/
def Thread.real_registered (t : Thread) : Bool := !t.is_dummy && t.pc.registered

/-- The thread is real and has not yet returned from `add_password`. -/
def Thread.real_unregistered (t : Thread) : Bool := !t.is_dummy && !t.pc.registered

/-- What the authorization gate relies on, for one thread: a dummy thread is
outside the registry code, a real thread that has registered is stored, and
the thread did not take the unauthorized exit. -/
def ThreadOk (r : Registry) (t : Thread) : Prop :=
  (t.is_dummy = true → t.pc.gated = false) ∧
  (t.is_dummy = false → t.pc.registered = true → r.Stored t.hash) ∧
  t.pc ≠ Pc.unauthorized

/-- The invariant of the registry in a test case: the array has its size,
`password_count` is at most the number of real threads that have registered,
nothing was written to `stderr` since the state `s0`, and every thread
satisfies `ThreadOk`. -/
def RegInv (s0 s : State) : Prop :=
  s.shared.registry.WellSized ∧
  s.shared.registry.password_count ≤ s.threads.countP Thread.real_registered ∧
  s.threads.countP Thread.real = s0.threads.countP Thread.real ∧
  s.shared.stderr = s0.shared.stderr ∧
  ∀ t ∈ s.threads, ThreadOk s.shared.registry t

/-- The start of test case (3, 2) with hashes 100, 101, ...: the table keeps
entries of an earlier test case, `password_count = 0`. -/
def scenario_initial : State :=
  { shared := { BUFFER := 0,
                registry := ⟨[100, 101, 102, 0, 0, 0, 0, 0, 0, 0, 0, 0, 0, 0, 0, 0, 0, 0], 0⟩,
                password_mutex := false, resource_access := 1, read_count_access := 1,
                read_count := 0, stdout := [], stderr := [] },
    threads := scenario_threads 3 2 (fun n => 100 + n) }

/-- The first real reader (thread 0) registers and passes its first
authorization check. -/
def scenario_schedule : List (Nat × Nat) :=
  [(0, 0), (0, 0), (0, 0), (0, 0), (0, 0), (0, 0)]

/-- The state `scenario_schedule` leads to. -/
def scenario_state : State :=
  (run_schedule scenario_initial scenario_schedule).getD scenario_initial

/-! # Theorems -/

/-! ### Lemmas on the scan -/

theorem scan_table_iff (table : List Nat) (hash : Nat) (n i : Nat) :
    scan_table table hash n i = true ↔ ∃ j, i ≤ j ∧ j < i + n ∧ table.getD j 0 = hash := by
  induction n generalizing i with
  | zero =>
    simp only [scan_table, Bool.false_eq_true, false_iff]
    rintro ⟨j, h1, h2, _⟩
    omega
  | succ n ih =>
    unfold scan_table
    by_cases h : table.getD i 0 = hash
    · simp only [h, if_true, true_iff]
      exact ⟨i, le_refl _, by omega, h⟩
    · simp only [h, if_false, ih]
      constructor
      · rintro ⟨j, h1, h2, h3⟩
        exact ⟨j, by omega, by omega, h3⟩
      · rintro ⟨j, h1, h2, h3⟩
        have hne : j ≠ i := by
          intro e
          subst e
          exact h h3
        exact ⟨j, by omega, by omega, h3⟩

theorem scan_iff_stored (r : Registry) (hash : Nat) :
    scan_table r.password_table hash r.password_count 0 = true ↔ r.Stored hash := by
  rw [scan_table_iff]
  unfold Registry.Stored
  constructor
  · rintro ⟨j, _, h2, h3⟩
    exact ⟨j, by omega, h3⟩
  · rintro ⟨j, h2, h3⟩
    exact ⟨j, Nat.zero_le _, by omega, h3⟩

theorem getD_set_eq (l : List Nat) (i v : Nat) (h : i < l.length) :
    (l.set i v).getD i 0 = v := by
  simp [List.getD_eq_getElem?_getD, List.getElem?_set, h]

theorem getD_set_ne (l : List Nat) (i j v : Nat) (h : i ≠ j) :
    (l.set i v).getD j 0 = l.getD j 0 := by
  simp [List.getD_eq_getElem?_getD, List.getElem?_set, h]

theorem add_password_absent (r : Registry) (hash : Nat) (hs : ¬ r.Stored hash)
    (hc : r.password_count < 2 * MAX_THREADS) :
    add_password r hash =
      ({ password_table := r.password_table.set r.password_count hash,
         password_count := r.password_count + 1 }, []) := by
  have h : ¬ scan_table r.password_table hash r.password_count 0 = true := by
    rw [scan_iff_stored]; exact hs
  simp [add_password, h, hc]

theorem add_password_present (r : Registry) (hash : Nat) (hs : r.Stored hash) :
    add_password r hash = (r, []) := by
  have h : scan_table r.password_table hash r.password_count 0 = true := by
    rw [scan_iff_stored]; exact hs
  simp [add_password, h]

theorem add_password_full (r : Registry) (hash : Nat) (hs : ¬ r.Stored hash)
    (hc : ¬ r.password_count < 2 * MAX_THREADS) :
    add_password r hash = (r, ["Password table full!\n"]) := by
  have h : ¬ scan_table r.password_table hash r.password_count 0 = true := by
    rw [scan_iff_stored]; exact hs
  simp [add_password, h, hc]

theorem add_password_wellSized (r : Registry) (hash : Nat) (h : r.WellSized) :
    (add_password r hash).1.WellSized := by
  unfold add_password
  split
  · exact h
  · split
    · simpa [Registry.WellSized] using h
    · exact h

/-- Registration never removes a stored identity. -/
theorem stored_add_password (r : Registry) (hash h' : Nat) (hs : r.Stored h') :
    (add_password r hash).1.Stored h' := by
  unfold add_password
  split
  · exact hs
  · split
    · obtain ⟨i, hi, he⟩ := hs
      refine ⟨i, by simp only; omega, ?_⟩
      simp only
      rw [getD_set_ne _ _ _ _ (by omega)]
      exact he
    · exact hs

/-- After a registration that found room, the identity is stored. -/
theorem stored_after_add (r : Registry) (hash : Nat) (h : r.WellSized)
    (hc : r.password_count < 2 * MAX_THREADS) :
    (add_password r hash).1.Stored hash := by
  by_cases hs : r.Stored hash
  · rw [add_password_present r hash hs]; exact hs
  · rw [add_password_absent r hash hs hc]
    refine ⟨r.password_count, by simp, ?_⟩
    simp only
    exact getD_set_eq _ _ _ (by rw [h]; exact hc)

theorem distinct_add_password (r : Registry) (hash : Nat) (h : r.WellSized)
    (hd : r.Distinct) : (add_password r hash).1.Distinct := by
  by_cases hs : r.Stored hash
  · rw [add_password_present r hash hs]; exact hd
  · by_cases hc : r.password_count < 2 * MAX_THREADS
    · rw [add_password_absent r hash hs hc]
      have hlen : r.password_count < r.password_table.length := by rw [h]; exact hc
      intro i j hi hj he
      simp only at hi hj he
      by_cases e1 : i = r.password_count
      · by_cases e2 : j = r.password_count
        · omega
        · exfalso
          rw [e1, getD_set_eq _ _ _ hlen, getD_set_ne _ _ _ _ (Ne.symm e2)] at he
          exact hs ⟨j, by omega, he.symm⟩
      · by_cases e2 : j = r.password_count
        · exfalso
          rw [e2, getD_set_eq _ _ _ hlen, getD_set_ne _ _ _ _ (Ne.symm e1)] at he
          exact hs ⟨i, by omega, he⟩
        · rw [getD_set_ne _ _ _ _ (Ne.symm e1), getD_set_ne _ _ _ _ (Ne.symm e2)] at he
          exact hd i j (by omega) (by omega) he
    · rw [add_password_full r hash hs hc]; exact hd

/-! ### Counting threads -/

theorem cnt_set (P : Pc → Bool) (l : List Thread) (k : Nat) (t t' : Thread)
    (h : l[k]? = some t) :
    cnt P (l.set k t') + (P t.pc).toNat = cnt P l + (P t'.pc).toNat := by
  induction l generalizing k with
  | nil => simp at h
  | cons x l ih =>
    cases k with
    | zero =>
      simp only [List.getElem?_cons_zero, Option.some.injEq] at h
      subst h
      simp only [cnt, List.set_cons_zero, List.countP_cons]
      cases P x.pc <;> cases P t'.pc <;> simp
    | succ k =>
      simp only [List.getElem?_cons_succ] at h
      have := ih k h
      simp only [cnt, List.set_cons_succ, List.countP_cons] at this ⊢
      omega

theorem cnt_pos_of_get (P : Pc → Bool) (l : List Thread) (k : Nat) (t : Thread)
    (h : l[k]? = some t) (hp : P t.pc = true) : 1 ≤ cnt P l := by
  have hmem : t ∈ l := List.getElem?_mem h
  have : 0 < l.countP (fun t => P t.pc) := List.countP_pos_iff.mpr ⟨t, hmem, hp⟩
  exact this

theorem cnt_ge (P : Pc → Bool) (l : List Thread) (k : Nat) (t : Thread)
    (h : l[k]? = some t) : (P t.pc).toNat ≤ cnt P l := by
  cases hp : P t.pc with
  | false => simp
  | true => simpa using cnt_pos_of_get P l k t h hp

/-! ### The protocol invariant -/

/-- A step of the model is an action of one of its threads. -/
theorem step_some (s s' : State) (k rnd : Nat) (hstep : step s k rnd = some s') :
    ∃ (t : Thread) (g' : Shared) (t' : Thread), s.threads[k]? = some t ∧
      step_thread s.shared t rnd = some (g', t') ∧
      s' = { shared := g', threads := s.threads.set k t' } := by
  unfold step at hstep
  split at hstep
  · exact absurd hstep (by simp)
  · rename_i t ht
    split at hstep
    · exact absurd hstep (by simp)
    · rename_i g' t' hst
      simp only [Option.some.injEq] at hstep
      exact ⟨t, g', t', ht, hst, hstep.symm⟩

set_option maxHeartbeats 2000000 in
/-- One atomic action preserves the invariant, the counts changing by the
move of the acting thread from its old to its new program point. -/
theorem step_thread_invN (g g' : Shared) (t t' : Thread) (rnd : Nat)
    (hst : step_thread g t rnd = some (g', t'))
    (m h c w n1 n2 n3 n4 n5 m' h' c' w' n1' n2' n3' n4' n5' : Nat)
    (e1 : m' + (Pc.holds_mutex t.pc).toNat = m + (Pc.holds_mutex t'.pc).toNat)
    (e2 : h' + (Pc.holds_count t.pc).toNat = h + (Pc.holds_count t'.pc).toNat)
    (e3 : c' + (Pc.counted t.pc).toNat = c + (Pc.counted t'.pc).toNat)
    (e4 : w' + (Pc.writer_cs t.pc).toNat = w + (Pc.writer_cs t'.pc).toNat)
    (e5 : n1' + (Pc.is .r_test_first t.pc).toNat = n1 + (Pc.is .r_test_first t'.pc).toNat)
    (e6 : n2' + (Pc.is .r_wait_resource t.pc).toNat
      = n2 + (Pc.is .r_wait_resource t'.pc).toNat)
    (e7 : n3' + (Pc.is .r_test_last t.pc).toNat = n3 + (Pc.is .r_test_last t'.pc).toNat)
    (e8 : n4' + (Pc.is .r_signal_resource t.pc).toNat
      = n4 + (Pc.is .r_signal_resource t'.pc).toNat)
    (e9 : n5' + (Pc.holds_plain t.pc).toNat = n5 + (Pc.holds_plain t'.pc).toNat)
    (hinv : InvN g m h c w n1 n2 n3 n4 n5) : InvN g' m' h' c' w' n1' n2' n3' n4' n5' := by
  unfold InvN at hinv ⊢
  obtain ⟨i1, i2, i3, i4, i5, i6, i7, i8, i9⟩ := hinv
  have hb : g.password_mutex = false → g.password_mutex.toNat = 0 := by
    intro hx; rw [hx]; rfl
  have hle : g.password_mutex.toNat ≤ 1 := Bool.toNat_le _
  unfold step_thread at hst
  cases hpc : t.pc <;> simp only [hpc] at hst e1 e2 e3 e4 e5 e6 e7 e8 e9
  all_goals (try unfold entry_pc at hst)
  all_goals (try split at hst)
  all_goals (try split at hst)
  all_goals (try split at hst)
  all_goals (try (simp only [reduceCtorEq] at hst))
  all_goals (try (rename_i hx; have hb2 := hb (by simpa using hx)))
  all_goals (
    simp only [Option.some.injEq, Prod.mk.injEq] at hst
    obtain ⟨rfl, rfl⟩ := hst
    simp only [Pc.holds_mutex, Pc.holds_count, Pc.counted, Pc.writer_cs, Pc.is, Pc.holds_plain,
      reduceCtorEq, decide_False, decide_True, Bool.toNat_false, Bool.toNat_true,
      Nat.add_zero] at e1 e2 e3 e4 e5 e6 e7 e8 e9
    try simp only [Bool.toNat_false, Bool.toNat_true]
    omega)

theorem step_inv (s s' : State) (k rnd : Nat) (hinv : Inv s)
    (hstep : step s k rnd = some s') : Inv s' := by
  obtain ⟨t, g', t', hk, hst, rfl⟩ := step_some s s' k rnd hstep
  exact step_thread_invN s.shared g' t t' rnd hst _ _ _ _ _ _ _ _ _ _ _ _ _ _ _ _ _ _
    (cnt_set Pc.holds_mutex _ k t t' hk) (cnt_set Pc.holds_count _ k t t' hk)
    (cnt_set Pc.counted _ k t t' hk) (cnt_set Pc.writer_cs _ k t t' hk)
    (cnt_set (Pc.is .r_test_first) _ k t t' hk)
    (cnt_set (Pc.is .r_wait_resource) _ k t t' hk)
    (cnt_set (Pc.is .r_test_last) _ k t t' hk)
    (cnt_set (Pc.is .r_signal_resource) _ k t t' hk)
    (cnt_set Pc.holds_plain _ k t t' hk) hinv

/-! ### More counting lemmas -/

theorem cnt_le_add_of_mem (P Q R : Pc → Bool) (l : List Thread)
    (h : ∀ t ∈ l, (P t.pc).toNat ≤ (Q t.pc).toNat + (R t.pc).toNat) :
    cnt P l ≤ cnt Q l + cnt R l := by
  induction l with
  | nil => simp [cnt]
  | cons x l ih =>
    have hx := h x (List.mem_cons_self _ _)
    have hl := ih (fun t ht => h t (List.mem_cons_of_mem _ ht))
    simp only [cnt, List.countP_cons] at hl ⊢
    cases hp : P x.pc <;> cases hq : Q x.pc <;> cases hr : R x.pc <;>
      simp [hp, hq, hr] at hx ⊢ <;> omega

theorem cnt_false (l : List Thread) : cnt (fun _ => false) l = 0 := by
  simp [cnt]

theorem cnt_eq_zero_of_mem (P : Pc → Bool) (l : List Thread)
    (h : ∀ t ∈ l, P t.pc = false) : cnt P l = 0 := by
  have := cnt_le_add_of_mem P (fun _ => false) (fun _ => false) l
    (fun t ht => by simp [h t ht])
  simp only [cnt_false] at this
  omega

theorem cnt_add_le (P Q R : Pc → Bool) (l : List Thread)
    (h : ∀ pc, (P pc).toNat + (Q pc).toNat ≤ (R pc).toNat) :
    cnt P l + cnt Q l ≤ cnt R l := by
  induction l with
  | nil => simp [cnt]
  | cons x l ih =>
    have hx := h x.pc
    simp only [cnt, List.countP_cons] at ih ⊢
    cases hp : P x.pc <;> cases hq : Q x.pc <;> cases hr : R x.pc <;>
      simp [hp, hq, hr] at hx ⊢ <;> omega

theorem exists_of_cnt_pos (P : Pc → Bool) (l : List Thread) (h : 1 ≤ cnt P l) :
    ∃ (k : Nat) (t : Thread), l[k]? = some t ∧ P t.pc = true := by
  have h' : 0 < l.countP (fun t => P t.pc) := h
  obtain ⟨t, ht, hp⟩ := List.countP_pos_iff.mp h'
  obtain ⟨k, hk⟩ := List.getElem?_of_mem ht
  exact ⟨k, t, hk, hp⟩

theorem cnt_two_of_get (P : Pc → Bool) (l : List Thread) (k1 k2 : Nat) (t1 t2 : Thread)
    (hP : P Pc.start = false) (hne : k1 ≠ k2)
    (h1 : l[k1]? = some t1) (h2 : l[k2]? = some t2)
    (p1 : P t1.pc = true) (p2 : P t2.pc = true) : 2 ≤ cnt P l := by
  have e := cnt_set P l k1 t1 { t1 with pc := Pc.start } h1
  have h2' : (l.set k1 { t1 with pc := Pc.start })[k2]? = some t2 := by
    rw [List.getElem?_set_ne hne]; exact h2
  have := cnt_pos_of_get P _ k2 t2 h2' p2
  simp only [p1, hP, Bool.toNat_true, Bool.toNat_false] at e
  omega

/-! ### Reachable states satisfy the invariant -/

theorem initial_inv (s : State) (h : Initial s) : Inv s := by
  obtain ⟨h1, h2, h3, h4, h5⟩ := h
  have z : ∀ P : Pc → Bool, P Pc.start = false → cnt P s.threads = 0 := by
    intro P hP
    apply cnt_eq_zero_of_mem
    intro t ht
    rw [(h5 t ht).1]; exact hP
  unfold Inv InvN
  rw [z Pc.holds_mutex rfl, z Pc.holds_count rfl, z Pc.counted rfl, z Pc.writer_cs rfl,
    z (Pc.is .r_test_first) rfl, z (Pc.is .r_wait_resource) rfl, z (Pc.is .r_test_last) rfl,
    z (Pc.is .r_signal_resource) rfl, z Pc.holds_plain rfl, h1, h2, h3, h4]
  simp

theorem reachable_inv (s0 s : State) (h0 : Initial s0) (hr : Reachable s0 s) : Inv s := by
  induction hr with
  | start => exact initial_inv s0 h0
  | next k rnd _ hs ih => exact step_inv _ _ k rnd ih hs

theorem reachable_of_run (s0 s : State) (sched : List (Nat × Nat))
    (h : run_schedule s0 sched = some s) : Reachable s0 s := by
  have gen : ∀ (sched : List (Nat × Nat)) (s1 : State), Reachable s0 s1 →
      run_schedule s1 sched = some s → Reachable s0 s := by
    intro sched
    induction sched with
    | nil =>
      intro s1 hr h
      simp only [run_schedule, Option.some.injEq] at h
      subst h; exact hr
    | cons a rest ih =>
      intro s1 hr h
      obtain ⟨k, rnd⟩ := a
      simp only [run_schedule] at h
      cases hs : step s1 k rnd with
      | none => simp [hs] at h
      | some s2 =>
        simp only [hs] at h
        exact ih s2 (Reachable.next k rnd hr hs) h
  exact gen sched s0 Reachable.start h

theorem reachable_length (s0 s : State) (hr : Reachable s0 s) :
    s.threads.length = s0.threads.length := by
  induction hr with
  | start => rfl
  | next k rnd _ hs ih =>
    obtain ⟨t, g', t', _, _, rfl⟩ := step_some _ _ k rnd hs
    simpa using ih

/-! ### Enabled and blocked threads -/

theorem step_thread_rnd (g : Shared) (t : Thread) (rnd : Nat) :
    (step_thread g t rnd).isSome = (step_thread g t 0).isSome := by
  unfold step_thread
  cases t.pc <;> rfl

theorem enabled_of_step_thread (s : State) (k : Nat) (t : Thread)
    (hk : s.threads[k]? = some t) (h : (step_thread s.shared t 0).isSome = true) :
    Enabled s k := by
  unfold Enabled step
  simp only [hk]
  cases hst : step_thread s.shared t 0 with
  | none => simp [hst] at h
  | some p => rfl

theorem step_thread_of_not_enabled (s : State) (k : Nat) (t : Thread)
    (hk : s.threads[k]? = some t) (h : ¬ Enabled s k) :
    step_thread s.shared t 0 = none := by
  cases hst : step_thread s.shared t 0 with
  | none => rfl
  | some p =>
    exact absurd (enabled_of_step_thread s k t hk (by simp [hst])) h

/-- A thread without a step has exited or waits for a taken semaphore or mutex. -/
theorem blocked_cases (g : Shared) (t : Thread) (h : step_thread g t 0 = none) :
    t.pc.terminated = true ∨
    (t.pc.waits_mutex = true ∧ g.password_mutex = true) ∨
    (t.pc.waits_count = true ∧ g.read_count_access = 0) ∨
    (t.pc.waits_resource = true ∧ g.resource_access = 0) := by
  unfold step_thread at h
  cases hpc : t.pc <;> simp only [hpc] at h <;>
    simp only [Pc.terminated, Pc.waits_mutex, Pc.waits_count, Pc.waits_resource] <;>
    (try split at h) <;> simp_all

/-- Whether a thread has a step does not depend on the value `rand()` returns. -/
theorem enabled_iff_exists_step (s : State) (k : Nat) :
    Enabled s k ↔ ∃ (rnd : Nat) (s' : State), step s k rnd = some s' := by
  constructor
  · intro h
    unfold Enabled at h
    cases hs : step s k 0 with
    | none => simp [hs] at h
    | some s' => exact ⟨0, s', hs⟩
  · rintro ⟨rnd, s', hs⟩
    obtain ⟨t, g', t', hk, hst, _⟩ := step_some s s' k rnd hs
    apply enabled_of_step_thread s k t hk
    rw [← step_thread_rnd _ _ rnd, hst]
    rfl

/-! ### Consequences of the invariant -/

/-- When every thread of a test case has exited, the globals are back at their
initial values: `main` can start the next test case without recreating the
semaphores. -/
theorem all_terminated_state (s0 s : State) (h0 : Initial s0) (hr : Reachable s0 s)
    (hdone : ∀ t ∈ s.threads, t.pc.terminated = true) :
    s.shared.read_count = 0 ∧ s.shared.resource_access = 1 ∧
    s.shared.read_count_access = 1 ∧ s.shared.password_mutex = false := by
  have hinv := reachable_inv s0 s h0 hr
  have z : ∀ P : Pc → Bool, (∀ pc, pc.terminated = true → P pc = false) →
      cnt P s.threads = 0 := fun P hP =>
    cnt_eq_zero_of_mem P _ (fun t ht => hP _ (hdone t ht))
  have z1 := z Pc.holds_mutex (by intro pc; cases pc <;> decide)
  have z2 := z Pc.holds_count (by intro pc; cases pc <;> decide)
  have z3 := z Pc.counted (by intro pc; cases pc <;> decide)
  have z4 := z Pc.writer_cs (by intro pc; cases pc <;> decide)
  have hm : s.shared.password_mutex.toNat = 0 → s.shared.password_mutex = false := by
    cases s.shared.password_mutex <;> simp
  unfold Inv InvN at hinv
  refine ⟨by omega, by omega, by omega, hm (by omega)⟩


theorem reader_cs_counted (l : List Thread) :
    cnt Pc.reader_cs l + cnt (Pc.is .r_test_first) l + cnt (Pc.is .r_wait_resource) l
      ≤ cnt Pc.counted l := by
  have h1 := cnt_add_le Pc.reader_cs (Pc.is .r_test_first)
    (fun pc => Pc.reader_cs pc || Pc.is .r_test_first pc) l
    (by intro pc; cases pc <;> decide)
  have h2 := cnt_add_le (fun pc => Pc.reader_cs pc || Pc.is .r_test_first pc)
    (Pc.is .r_wait_resource) Pc.counted l (by intro pc; cases pc <;> decide)
  omega

/-- In a reachable state at most one writer is inside its critical section,
and `resource_access` is then 0. -/
theorem writer_cs_le_one (s : State) (hinv : Inv s) :
    s.shared.resource_access + cnt Pc.writer_cs s.threads ≤ 1 := by
  unfold Inv InvN at hinv
  omega

/-! ## The claims on the protocol -/

/-- C1. Critical-section exclusion: in every state reachable from an initial
state (`read_count = 0`, both semaphores at 1, any finite list of reader and
writer threads), when a thread is inside the writer critical section (after
its wait on `resource_access` returned, before its signal), no other thread is
inside the writer critical section and no thread is inside the reader critical
section (after its entry section, before its exit section). -/
theorem critical_section_exclusion (s0 s : State) (h0 : Initial s0) (hr : Reachable s0 s)
    (k1 : Nat) (t1 : Thread) (h1 : s.threads[k1]? = some t1)
    (hw : t1.pc.writer_cs = true) :
    (∀ (k2 : Nat) (t2 : Thread), s.threads[k2]? = some t2 →
      t2.pc.writer_cs = true → k2 = k1) ∧
    (∀ (k2 : Nat) (t2 : Thread), s.threads[k2]? = some t2 → t2.pc.reader_cs = false) := by
  have hinv := reachable_inv s0 s h0 hr
  have hle := writer_cs_le_one s hinv
  have hw1 := cnt_pos_of_get Pc.writer_cs _ k1 t1 h1 hw
  constructor
  · intro k2 t2 h2 hw2
    by_contra hne
    have := cnt_two_of_get Pc.writer_cs _ k2 k1 t2 t1 rfl hne h2 h1 hw2 hw
    omega
  · intro k2 t2 h2
    by_contra hc
    have hc' : t2.pc.reader_cs = true := by simpa using hc
    have hr1 := cnt_pos_of_get Pc.reader_cs _ k2 t2 h2 hc'
    have hcount := reader_cs_counted s.threads
    unfold Inv InvN at hinv
    omega

/-- Witness of C1: in `demo_state` the writer is inside its critical section
and the reader is not. -/
theorem critical_section_exclusion_witness :
    Initial demo_initial ∧ run_schedule demo_initial demo_schedule = some demo_state ∧
    (∀ (k2 : Nat) (t2 : Thread), demo_state.threads[k2]? = some t2 →
      t2.pc.writer_cs = true → k2 = 0) ∧
    (∀ (k2 : Nat) (t2 : Thread), demo_state.threads[k2]? = some t2 →
      t2.pc.reader_cs = false) :=
  ⟨by decide, by decide,
    critical_section_exclusion demo_initial demo_state (by decide)
      (reachable_of_run _ _ demo_schedule (by decide)) 0 ⟨1, true, .writer, 7, .w_write, 0⟩
      (by decide) (by decide)⟩

/-- Counterexample to C2 as stated: after `demo_schedule` a writer holds
`resource_access` and `read_count` is 1. -/
theorem read_count_positive_while_writing :
    Initial demo_initial ∧
    ∃ s, Reachable demo_initial s ∧ ReadersCountedWhileWriting s :=
  ⟨by decide, demo_state, reachable_of_run _ _ demo_schedule (by decide),
    by decide, 0, _, rfl, rfl, rfl⟩

/-- C2 (amended). In every reachable state in which a thread holds
`resource_access` as a writer: `read_count` is 0 or 1; it is 1 only while a
reader that has executed `read_count++` is still in its entry section, at the
test of line 96 or at the wait on `resource_access` of line 97; no reader is
inside its critical section; and no other writer holds `resource_access`. -/
theorem read_count_while_writing (s0 s : State) (h0 : Initial s0) (hr : Reachable s0 s)
    (k1 : Nat) (t1 : Thread) (h1 : s.threads[k1]? = some t1)
    (hw : t1.pc.writer_cs = true) :
    (s.shared.read_count = 0 ∨
      (s.shared.read_count = 1 ∧
        ∃ (k : Nat) (t : Thread), s.threads[k]? = some t ∧
          (t.pc = Pc.r_test_first ∨ t.pc = Pc.r_wait_resource))) ∧
    (∀ (k2 : Nat) (t2 : Thread), s.threads[k2]? = some t2 → t2.pc.reader_cs = false) ∧
    (∀ (k2 : Nat) (t2 : Thread), s.threads[k2]? = some t2 →
      t2.pc.writer_cs = true → k2 = k1) := by
  have hinv := reachable_inv s0 s h0 hr
  have hw1 := cnt_pos_of_get Pc.writer_cs _ k1 t1 h1 hw
  have hle := writer_cs_le_one s hinv
  have hcount := reader_cs_counted s.threads
  refine ⟨?_, ?_, ?_⟩
  · by_cases hz : s.shared.read_count = 0
    · exact Or.inl hz
    · right
      have hpos : 1 ≤ cnt (fun pc => Pc.is .r_test_first pc || Pc.is .r_wait_resource pc)
          s.threads ∧ s.shared.read_count = 1 := by
        have hsum := cnt_add_le (Pc.is .r_test_first) (Pc.is .r_wait_resource)
          (fun pc => Pc.is .r_test_first pc || Pc.is .r_wait_resource pc) s.threads
          (by intro pc; cases pc <;> decide)
        unfold Inv InvN at hinv
        omega
      obtain ⟨k, t, hk, hp⟩ := exists_of_cnt_pos _ _ hpos.1
      refine ⟨hpos.2, k, t, hk, ?_⟩
      simpa [Pc.is] using hp
  · intro k2 t2 h2
    by_contra hc
    have hc' : t2.pc.reader_cs = true := by simpa using hc
    have hr1 := cnt_pos_of_get Pc.reader_cs _ k2 t2 h2 hc'
    unfold Inv InvN at hinv
    omega
  · intro k2 t2 h2 hw2
    by_contra hne
    have := cnt_two_of_get Pc.writer_cs _ k2 k1 t2 t1 rfl hne h2 h1 hw2 hw
    omega

/-- Witness of C2 (amended), in `demo_state`. -/
theorem read_count_while_writing_witness :
    Initial demo_initial ∧ run_schedule demo_initial demo_schedule = some demo_state ∧
    (demo_state.shared.read_count = 0 ∨
      (demo_state.shared.read_count = 1 ∧
        ∃ (k : Nat) (t : Thread), demo_state.threads[k]? = some t ∧
          (t.pc = Pc.r_test_first ∨ t.pc = Pc.r_wait_resource))) :=
  ⟨by decide, by decide,
    (read_count_while_writing demo_initial demo_state (by decide)
      (reachable_of_run _ _ demo_schedule (by decide)) 0 ⟨1, true, .writer, 7, .w_write, 0⟩
      (by decide) (by decide)).1⟩

/-- C7. Non-negativity of `read_count`: in every reachable state
`read_count >= 0` (and it is at most the number of threads, so the `int` does
not overflow); it equals the number of readers that have executed
`read_count++` and not yet `read_count--`; and a thread at `read_count++` or
`read_count--` holds `read_count_access` (its counter is 0 and the thread is
the only holder), with `read_count >= 1` before the decrement. -/
theorem read_count_nonneg (s0 s : State) (h0 : Initial s0) (hr : Reachable s0 s) :
    0 ≤ s.shared.read_count ∧
    s.shared.read_count ≤ (s0.threads.length : Int) ∧
    s.shared.read_count = (cnt Pc.counted s.threads : Int) ∧
    ∀ (k : Nat) (t : Thread), s.threads[k]? = some t →
      (t.pc = Pc.r_incr ∨ t.pc = Pc.r_decr) →
      s.shared.read_count_access = 0 ∧ cnt Pc.holds_count s.threads = 1 ∧
      (t.pc = Pc.r_decr → 1 ≤ s.shared.read_count) := by
  have hinv := reachable_inv s0 s h0 hr
  refine ⟨?_, ?_, ?_, ?_⟩
  · unfold Inv InvN at hinv
    omega
  · have hlen := reachable_length s0 s hr
    have hle : cnt Pc.counted s.threads ≤ s.threads.length := List.countP_le_length _
    unfold Inv InvN at hinv
    omega
  · exact hinv.2.2.1
  · intro k t hk hpc
    have hh : 1 ≤ cnt Pc.holds_count s.threads :=
      cnt_pos_of_get Pc.holds_count _ k t hk (by rcases hpc with h | h <;> rw [h] <;> rfl)
    have hcnt : t.pc = Pc.r_decr → 1 ≤ cnt Pc.counted s.threads := fun h =>
      cnt_pos_of_get Pc.counted _ k t hk (by rw [h]; rfl)
    unfold Inv InvN at hinv
    refine ⟨by omega, by omega, fun h => ?_⟩
    have := hcnt h
    omega

/-- Witness of C7, in `demo_state`. -/
theorem read_count_nonneg_witness :
    Initial demo_initial ∧ run_schedule demo_initial demo_schedule = some demo_state ∧
    0 ≤ demo_state.shared.read_count :=
  ⟨by decide, by decide,
    (read_count_nonneg demo_initial demo_state (by decide)
      (reachable_of_run _ _ demo_schedule (by decide))).1⟩

/-- C9. Deadlock is not reachable: in every state reachable from an initial
state, if some thread has not terminated then some thread has an enabled step. -/
theorem deadlock_free (s0 s : State) (h0 : Initial s0) (hr : Reachable s0 s)
    (hlive : ∃ (k : Nat) (t : Thread), s.threads[k]? = some t ∧ t.pc.terminated = false) :
    ∃ k, Enabled s k := by
  have hinv := reachable_inv s0 s h0 hr
  by_contra hno
  have hall : ∀ (k : Nat) (t : Thread), s.threads[k]? = some t →
      step_thread s.shared t 0 = none := fun k t hk =>
    step_thread_of_not_enabled s k t hk (fun he => hno ⟨k, he⟩)
  have hblk : ∀ t ∈ s.threads, t.pc.terminated = true ∨
      (t.pc.waits_mutex = true ∧ s.shared.password_mutex = true) ∨
      (t.pc.waits_count = true ∧ s.shared.read_count_access = 0) ∨
      (t.pc.waits_resource = true ∧ s.shared.resource_access = 0) := by
    intro t ht
    obtain ⟨k, hk⟩ := List.getElem?_of_mem ht
    exact blocked_cases _ _ (hall k t hk)
  -- no thread is at a program point that always has a step
  have zero : ∀ P : Pc → Bool, (∀ pc, P pc = true → pc.terminated = false ∧
      pc.waits_mutex = false ∧ pc.waits_count = false ∧ pc.waits_resource = false) →
      cnt P s.threads = 0 := by
    intro P hP
    apply cnt_eq_zero_of_mem
    intro t ht
    by_contra hp
    have hp' : P t.pc = true := by simpa using hp
    obtain ⟨a, b, c, d⟩ := hP t.pc hp'
    rcases hblk t ht with h | h | h | h
    · rw [a] at h; exact absurd h (by decide)
    · rw [b] at h; exact absurd h.1 (by decide)
    · rw [c] at h; exact absurd h.1 (by decide)
    · rw [d] at h; exact absurd h.1 (by decide)
  have f1 := zero Pc.holds_mutex (by intro pc; cases pc <;> decide)
  have f2 := zero Pc.writer_cs (by intro pc; cases pc <;> decide)
  have f3 := zero (Pc.is .r_test_first) (by intro pc; cases pc <;> decide)
  have f4 := zero (Pc.is .r_test_last) (by intro pc; cases pc <;> decide)
  have f5 := zero (Pc.is .r_signal_resource) (by intro pc; cases pc <;> decide)
  have f6 := zero Pc.holds_plain (by intro pc; cases pc <;> decide)
  -- a waiting thread waits for something taken
  have g1 : 1 ≤ cnt Pc.waits_mutex s.threads → s.shared.password_mutex.toNat = 1 := by
    intro h
    obtain ⟨k, t, hk, hp⟩ := exists_of_cnt_pos _ _ h
    rcases hblk t (List.getElem?_mem hk) with h | h | h | h
    · exact absurd h (by revert hp; cases t.pc <;> decide)
    · rw [h.2]; rfl
    · exact absurd h.1 (by revert hp; cases t.pc <;> decide)
    · exact absurd h.1 (by revert hp; cases t.pc <;> decide)
  have g2 : 1 ≤ cnt Pc.waits_count s.threads → s.shared.read_count_access = 0 := by
    intro h
    obtain ⟨k, t, hk, hp⟩ := exists_of_cnt_pos _ _ h
    rcases hblk t (List.getElem?_mem hk) with h | h | h | h
    · exact absurd h (by revert hp; cases t.pc <;> decide)
    · exact absurd h.1 (by revert hp; cases t.pc <;> decide)
    · exact h.2
    · exact absurd h.1 (by revert hp; cases t.pc <;> decide)
  have g3 : 1 ≤ cnt Pc.waits_resource s.threads → s.shared.resource_access = 0 := by
    intro h
    obtain ⟨k, t, hk, hp⟩ := exists_of_cnt_pos _ _ h
    rcases hblk t (List.getElem?_mem hk) with h | h | h | h
    · exact absurd h (by revert hp; cases t.pc <;> decide)
    · exact absurd h.1 (by revert hp; cases t.pc <;> decide)
    · exact absurd h.1 (by revert hp; cases t.pc <;> decide)
    · exact h.2
  -- the readers counted in `read_count` are at one of the two waits
  have g4 : cnt Pc.counted s.threads
      ≤ cnt (Pc.is .r_wait_resource) s.threads + cnt Pc.waits_count s.threads := by
    apply cnt_le_add_of_mem
    intro t ht
    have key : ∀ pc : Pc, (pc.terminated = true ∨ pc.waits_mutex = true ∨
        pc.waits_count = true ∨ pc.waits_resource = true) →
        pc.counted.toNat ≤ (Pc.is .r_wait_resource pc).toNat + pc.waits_count.toNat := by
      intro pc; cases pc <;> decide
    apply key
    rcases hblk t ht with h | h | h | h
    · exact Or.inl h
    · exact Or.inr (Or.inl h.1)
    · exact Or.inr (Or.inr (Or.inl h.1))
    · exact Or.inr (Or.inr (Or.inr h.1))
  have g5 : cnt (Pc.is .r_wait_resource) s.threads ≤ cnt Pc.waits_resource s.threads := by
    have := cnt_add_le (Pc.is .r_wait_resource) (fun _ => false) Pc.waits_resource s.threads
      (by intro pc; cases pc <;> decide)
    omega
  -- the thread that has not terminated waits
  have g6 : 1 ≤ cnt Pc.waits_mutex s.threads + cnt Pc.waits_count s.threads +
      cnt Pc.waits_resource s.threads := by
    obtain ⟨k, t, hk, hlive⟩ := hlive
    rcases hblk t (List.getElem?_mem hk) with h | h | h | h
    · rw [hlive] at h; exact absurd h (by decide)
    · have := cnt_pos_of_get Pc.waits_mutex _ k t hk h.1; omega
    · have := cnt_pos_of_get Pc.waits_count _ k t hk h.1; omega
    · have := cnt_pos_of_get Pc.waits_resource _ k t hk h.1; omega
  unfold Inv InvN at hinv
  omega

/-- Witness of C9: in `demo_state` the reader is blocked and the writer has a step. -/
theorem deadlock_free_witness :
    Initial demo_initial ∧ run_schedule demo_initial demo_schedule = some demo_state ∧
    ∃ k, Enabled demo_state k :=
  ⟨by decide, by decide,
    deadlock_free demo_initial demo_state (by decide)
      (reachable_of_run _ _ demo_schedule (by decide)) ⟨1, _, rfl, rfl⟩⟩

/-- Counterexample to C10 as stated: after `demo_schedule` the reader holds
`read_count_access` (it passed the wait of line 94 and has not reached the
signal of line 99) and is blocked at the wait on `resource_access` of line 97. -/
theorem count_lock_held_while_blocked :
    Initial demo_initial ∧
    ∃ s, Reachable demo_initial s ∧ HoldsCountWhileBlocked s ∧ ¬ Enabled s 1 :=
  ⟨by decide, demo_state, reachable_of_run _ _ demo_schedule (by decide),
    ⟨1, _, rfl, rfl, rfl, rfl⟩, by decide⟩

/-- C10 (amended). In every reachable state, a thread that holds
`read_count_access` and has no enabled step is the first reader: it is at the
wait on `resource_access` of line 97 with `read_count = 1`, `resource_access`
is 0 and held by a writer inside its critical section, and that writer has an
enabled step. Every other holder of `read_count_access`, in particular every
reader in its exit section, has an enabled step. -/
theorem count_lock_blocked_only_first_reader (s0 s : State) (h0 : Initial s0)
    (hr : Reachable s0 s) (k : Nat) (t : Thread) (hk : s.threads[k]? = some t)
    (hh : t.pc.holds_count = true) (hb : ¬ Enabled s k) :
    t.pc = Pc.r_wait_resource ∧ s.shared.read_count = 1 ∧ s.shared.resource_access = 0 ∧
    ∃ (kw : Nat) (tw : Thread), s.threads[kw]? = some tw ∧ tw.pc.writer_cs = true ∧
      Enabled s kw := by
  have hinv := reachable_inv s0 s h0 hr
  have hnone := step_thread_of_not_enabled s k t hk hb
  have hpc : t.pc = Pc.r_wait_resource ∧ s.shared.resource_access = 0 := by
    rcases blocked_cases _ _ hnone with h | h | h | h
    · exact absurd h (by revert hh; cases t.pc <;> decide)
    · exact absurd h.1 (by revert hh; cases t.pc <;> decide)
    · exact absurd h.1 (by revert hh; cases t.pc <;> decide)
    · refine ⟨?_, h.2⟩
      have h1 := h.1
      revert hh h1
      cases t.pc <;> simp [Pc.holds_count, Pc.waits_resource]
  have hn2 := cnt_pos_of_get (Pc.is .r_wait_resource) _ k t hk (by rw [hpc.1]; rfl)
  have hfacts : s.shared.read_count = 1 ∧ 1 ≤ cnt Pc.writer_cs s.threads := by
    have := hpc.2
    unfold Inv InvN at hinv
    omega
  obtain ⟨kw, tw, hkw, hw⟩ := exists_of_cnt_pos _ _ hfacts.2
  refine ⟨hpc.1, hfacts.1, hpc.2, kw, tw, hkw, hw, ?_⟩
  apply enabled_of_step_thread s kw tw hkw
  unfold step_thread
  revert hw
  cases tw.pc <;> simp [Pc.writer_cs]

/-- Witness of C10 (amended): the blocked reader of `demo_state`. -/
theorem count_lock_blocked_only_first_reader_witness :
    Initial demo_initial ∧ run_schedule demo_initial demo_schedule = some demo_state ∧
    ¬ Enabled demo_state 1 ∧
    demo_state.shared.read_count = 1 ∧ demo_state.shared.resource_access = 0 ∧
    ∃ (kw : Nat) (tw : Thread), demo_state.threads[kw]? = some tw ∧
      tw.pc.writer_cs = true ∧ Enabled demo_state kw :=
  ⟨by decide, by decide, by decide,
    (count_lock_blocked_only_first_reader demo_initial demo_state (by decide)
      (reachable_of_run _ _ demo_schedule (by decide)) 1
      ⟨1, true, .reader, 8, .r_wait_resource, 0⟩ (by decide) (by decide) (by decide)).2⟩

/-! ## The claims on the password table -/

theorem is_authorized_one_iff (r : Registry) (hash : Nat) :
    (is_authorized r hash).1 = 1 ↔ r.Stored hash := by
  rw [← scan_iff_stored]
  unfold is_authorized
  cases scan_table r.password_table hash r.password_count 0 <;> simp

theorem is_authorized_zero_iff (r : Registry) (hash : Nat) :
    (is_authorized r hash).1 = 0 ↔ ¬ r.Stored hash := by
  rw [← scan_iff_stored]
  unfold is_authorized
  cases scan_table r.password_table hash r.password_count 0 <;> simp

theorem not_stored_reset (r : Registry) (hash : Nat) : ¬ (reset_registry r).Stored hash := by
  rintro ⟨i, hi, _⟩
  simp [reset_registry] at hi

/-- C3. `is_authorized(h)` returns 1 if and only if `h` equals
`password_table[i]` for some `i < password_count`, returns 0 otherwise, and
leaves the table and `password_count` unchanged; after the reset of a test case
(`password_count = 0`) it returns 0 for every identity, also for one stored
before the reset, whose value is still in the array. -/
theorem is_authorized_correct (r : Registry) (hash : Nat) :
    ((is_authorized r hash).1 = 1 ↔
      ∃ i, i < r.password_count ∧ r.password_table.getD i 0 = hash) ∧
    ((is_authorized r hash).1 = 0 ↔
      ¬ ∃ i, i < r.password_count ∧ r.password_table.getD i 0 = hash) ∧
    (is_authorized r hash).2 = r ∧
    (is_authorized (reset_registry r) hash).1 = 0 ∧
    (reset_registry r).password_table = r.password_table :=
  ⟨is_authorized_one_iff r hash, is_authorized_zero_iff r hash, rfl,
    (is_authorized_zero_iff _ hash).mpr (not_stored_reset r hash), rfl⟩

/-- C4. Capacity boundary: on a table with `password_count = 18` and `h` not
among the stored entries, `add_password(h)` reports "Password table full!",
leaves `password_count` and the table unchanged, and `is_authorized(h)` returns
0 afterwards; with `password_count < 18` and `h` absent, `add_password(h)`
reports nothing, stores `h` at index `password_count`, leaves the other entries
unchanged and increases `password_count` by exactly 1. -/
theorem add_password_capacity (r : Registry) (hash : Nat) (hw : r.WellSized)
    (hs : ¬ r.Stored hash) :
    (r.password_count = 2 * MAX_THREADS →
      add_password r hash = (r, ["Password table full!\n"]) ∧
      (is_authorized (add_password r hash).1 hash).1 = 0) ∧
    (r.password_count < 2 * MAX_THREADS →
      (add_password r hash).2 = [] ∧
      (add_password r hash).1.password_count = r.password_count + 1 ∧
      (add_password r hash).1.password_table.getD r.password_count 0 = hash ∧
      (∀ i, i ≠ r.password_count →
        (add_password r hash).1.password_table.getD i 0 = r.password_table.getD i 0) ∧
      (add_password r hash).1.password_table.length = r.password_table.length ∧
      (is_authorized (add_password r hash).1 hash).1 = 1) := by
  constructor
  · intro hc
    have hfull := add_password_full r hash hs (by omega)
    refine ⟨hfull, ?_⟩
    rw [hfull]
    exact (is_authorized_zero_iff r hash).mpr hs
  · intro hc
    have habs := add_password_absent r hash hs hc
    have hlen : r.password_count < r.password_table.length := by rw [hw]; exact hc
    refine ⟨by rw [habs], by rw [habs], ?_, ?_, ?_, ?_⟩
    · rw [habs]; exact getD_set_eq _ _ _ hlen
    · intro i hi
      rw [habs]; exact getD_set_ne _ _ _ _ (Ne.symm hi)
    · rw [habs]; simp
    · exact (is_authorized_one_iff _ hash).mpr (stored_after_add r hash hw hc)

/-- Witness of C4: identity 99 on the full table and on a table with two
entries. -/
theorem add_password_capacity_witness :
    (add_password full_registry 99 = (full_registry, ["Password table full!\n"]) ∧
      (is_authorized (add_password full_registry 99).1 99).1 = 0) ∧
    ((add_password small_registry 99).2 = [] ∧
      (add_password small_registry 99).1.password_count = 3 ∧
      (add_password small_registry 99).1.password_table.getD 2 0 = 99) := by
  have h1 := (add_password_capacity full_registry 99 (by decide)
    (by rw [← scan_iff_stored]; decide)).1 (by decide)
  have h2 := (add_password_capacity small_registry 99 (by decide)
    (by rw [← scan_iff_stored]; decide)).2 (by decide)
  exact ⟨h1, h2.1, h2.2.1, h2.2.2.1⟩

/-- C5. Registration idempotence: `add_password(h)` applied to the state
after `add_password(h)` gives that same state (same `password_count`, same
table), and when `h` is already among the first `password_count` entries
`add_password(h)` does not change the state. -/
theorem add_password_idempotent (r : Registry) (hash : Nat) (hw : r.WellSized) :
    (add_password (add_password r hash).1 hash).1 = (add_password r hash).1 ∧
    (r.Stored hash → (add_password r hash).1 = r) := by
  refine ⟨?_, fun hs => by rw [add_password_present r hash hs]⟩
  by_cases hs : r.Stored hash
  · rw [add_password_present r hash hs, add_password_present r hash hs]
  · by_cases hc : r.password_count < 2 * MAX_THREADS
    · rw [add_password_present _ hash (stored_after_add r hash hw hc)]
    · rw [add_password_full r hash hs hc, add_password_full r hash hs hc]

/-- Witness of C5: registering 99 twice on a table with two entries. -/
theorem add_password_idempotent_witness :
    (add_password (add_password small_registry 99).1 99).1
      = (add_password small_registry 99).1 ∧
    (add_password (add_password small_registry 99).1 99).1.password_count = 3 := by
  have h := (add_password_idempotent small_registry 99 (by decide)).1
  exact ⟨h, by decide⟩

theorem distinct_reset (r : Registry) : (reset_registry r).Distinct := by
  intro i j hi
  simp [reset_registry] at hi

theorem run_ops_invariant (ops : List RegistryOp) (r : Registry) (hw : r.WellSized)
    (hd : r.Distinct) : (run_ops r ops).WellSized ∧ (run_ops r ops).Distinct := by
  induction ops generalizing r with
  | nil => exact ⟨hw, hd⟩
  | cons op rest ih =>
    cases op with
    | add hash =>
      exact ih _ (add_password_wellSized r hash hw) (distinct_add_password r hash hw hd)
    | reset =>
      exact ih _ hw (distinct_reset r)

/-- C8. No duplicate identities: in every table reached from a reset state
(`password_count = 0`, any array contents) by `add_password` calls and resets,
the first `password_count` entries are pairwise distinct. -/
theorem registry_distinct (r0 : Registry) (ops : List RegistryOp) (hw : r0.WellSized)
    (h0 : r0.password_count = 0) :
    ∀ i j, i < (run_ops r0 ops).password_count → j < (run_ops r0 ops).password_count →
      (run_ops r0 ops).password_table.getD i 0 = (run_ops r0 ops).password_table.getD j 0 →
      i = j := by
  have hd : r0.Distinct := by
    intro i j hi
    omega
  exact (run_ops_invariant ops r0 hw hd).2

/-- Witness of C8: registering 7, then past a reset 8, 9 and 8 again leaves two
entries, and they are distinct. -/
theorem registry_distinct_witness :
    (run_ops (reset_registry small_registry)
      [.add 7, .reset, .add 8, .add 9, .add 8]).password_count = 2 ∧
    ∀ i j, i < 2 → j < 2 →
      (run_ops (reset_registry small_registry)
        [.add 7, .reset, .add 8, .add 9, .add 8]).password_table.getD i 0 =
      (run_ops (reset_registry small_registry)
        [.add 7, .reset, .add 8, .add 9, .add 8]).password_table.getD j 0 →
      i = j :=
  ⟨by decide, registry_distinct (reset_registry small_registry)
    [.add 7, .reset, .add 8, .add 9, .add 8] (by decide) (by decide)⟩

/-! ## The registry in a test case -/

theorem add_password_count_le (r : Registry) (hash : Nat) :
    (add_password r hash).1.password_count ≤ r.password_count + 1 := by
  by_cases hs : r.Stored hash
  · rw [add_password_present r hash hs]; exact Nat.le_succ _
  · by_cases hc : r.password_count < 2 * MAX_THREADS
    · rw [add_password_absent r hash hs hc]
    · rw [add_password_full r hash hs hc]; exact Nat.le_succ _

theorem add_password_no_report (r : Registry) (hash : Nat)
    (hc : r.password_count < 2 * MAX_THREADS) : (add_password r hash).2 = [] := by
  by_cases hs : r.Stored hash
  · rw [add_password_present r hash hs]
  · rw [add_password_absent r hash hs hc]

theorem entry_pc_props (role : Role) :
    (entry_pc role).gated = false ∧ (entry_pc role).registered = true ∧
    entry_pc role ≠ Pc.unauthorized := by
  cases role <;> decide

/-- One atomic action keeps what the authorization gate relies on, as long as
the table has room for the acting thread if it has not registered yet. -/
theorem step_thread_registry (g g' : Shared) (t t' : Thread) (rnd : Nat)
    (hst : step_thread g t rnd = some (g', t')) (hw : g.registry.WellSized)
    (hok : ThreadOk g.registry t)
    (hroom : g.registry.password_count + t.real_unregistered.toNat ≤ 2 * MAX_THREADS) :
    g'.registry.WellSized ∧ ThreadOk g'.registry t' ∧ t'.is_dummy = t.is_dummy ∧
    (∀ h, g.registry.Stored h → g'.registry.Stored h) ∧ g'.stderr = g.stderr ∧
    g'.registry.password_count + t.real_registered.toNat
      ≤ g.registry.password_count + t'.real_registered.toNat := by
  obtain ⟨ok1, ok2, ok3⟩ := hok
  by_cases h1 : t.pc = Pc.reg_body
  · have hreal : t.is_dummy = false := by
      cases hd : t.is_dummy with
      | false => rfl
      | true => have := ok1 hd; rw [h1] at this; exact absurd this (by decide)
    have hc : g.registry.password_count < 2 * MAX_THREADS := by
      have hu : t.real_unregistered = true := by
        simp [Thread.real_unregistered, hreal, h1, Pc.registered]
      rw [hu] at hroom
      simp only [Bool.toNat_true] at hroom
      omega
    simp only [step_thread, h1, Option.some.injEq, Prod.mk.injEq] at hst
    obtain ⟨rfl, rfl⟩ := hst
    refine ⟨add_password_wellSized _ _ hw, ⟨fun _ => rfl, fun _ _ => ?_, by simp⟩, rfl,
      fun h hs => stored_add_password _ _ h hs, ?_, ?_⟩
    · exact stored_after_add _ _ hw hc
    · simp only [add_password_no_report _ t.hash hc, List.append_nil]
    · have := add_password_count_le g.registry t.hash
      have hu : t.real_registered = false := by
        simp [Thread.real_registered, h1, Pc.registered]
      have hu' : Thread.real_registered { t with pc := Pc.loop_head } = true := by
        simp [Thread.real_registered, hreal, Pc.registered]
      rw [hu, hu']
      simp only [Bool.toNat_false, Bool.toNat_true]
      omega
  by_cases h2 : t.pc = Pc.auth_body
  · have hreal : t.is_dummy = false := by
      cases hd : t.is_dummy with
      | false => rfl
      | true => have := ok1 hd; rw [h2] at this; exact absurd this (by decide)
    have hs : g.registry.Stored t.hash := ok2 hreal (by rw [h2]; rfl)
    have hone : (is_authorized g.registry t.hash).1 = 1 := (is_authorized_one_iff _ _).mpr hs
    have hne : ¬ (is_authorized g.registry t.hash).1 = 0 := by rw [hone]; decide
    simp only [step_thread, h2, hne, if_false, Option.some.injEq, Prod.mk.injEq] at hst
    obtain ⟨rfl, rfl⟩ := hst
    obtain ⟨p1, p2, p3⟩ := entry_pc_props t.role
    refine ⟨hw, ⟨fun _ => p1, fun _ _ => hs, p3⟩, rfl, fun h hs => hs, rfl, ?_⟩
    have hu : t.real_registered = true := by
      simp [Thread.real_registered, hreal, h2, Pc.registered]
    have hu' : Thread.real_registered { t with pc := entry_pc t.role } = true := by
      simp [Thread.real_registered, hreal, p2]
    rw [hu, hu']
    exact Nat.le_refl _
  -- the other actions do not touch the table
  have hsame : g'.registry = g.registry ∧ g'.stderr = g.stderr ∧ t'.is_dummy = t.is_dummy ∧
      t'.hash = t.hash ∧
      (t.is_dummy = true → t'.pc.gated = false) ∧
      (t'.pc.registered = true → t.is_dummy = false → t.pc.registered = true) ∧
      (t.pc.registered = true → t'.pc.registered = true) ∧
      t'.pc ≠ Pc.unauthorized := by
    obtain ⟨p1, p2, p3⟩ := entry_pc_props t.role
    unfold step_thread at hst
    cases hpc : t.pc <;> (try (exact absurd hpc h1)) <;> (try (exact absurd hpc h2)) <;>
      simp only [hpc] at hst ok1 <;>
      (try split at hst) <;>
      (try (simp only [reduceCtorEq] at hst)) <;>
      (simp only [Option.some.injEq, Prod.mk.injEq] at hst
       obtain ⟨rfl, rfl⟩ := hst
       refine ⟨rfl, rfl, rfl, rfl, ?_, ?_, ?_, ?_⟩ <;>
         first
         | (simp_all [Pc.gated, Pc.registered]; done)
         | (cases hd : t.is_dummy <;> cases hrole : t.role <;>
              simp_all [Pc.gated, Pc.registered, entry_pc]))
  obtain ⟨e1, e2, e3, e4, q1, q2, q3, q4⟩ := hsame
  rw [e1]
  refine ⟨hw, ⟨?_, ?_, q4⟩, e3, fun h hs => hs, e2, ?_⟩
  · intro hd; rw [e3] at hd; exact q1 hd
  · intro hd hr; rw [e3] at hd; rw [e4]; exact ok2 hd (q2 hr hd)
  · simp only [Thread.real_registered, e3]
    cases hd : t.is_dummy <;> cases hr : t.pc.registered <;> simp
    · rw [q3 hr]; simp

theorem countP_set_thread (P : Thread → Bool) (l : List Thread) (k : Nat) (t t' : Thread)
    (h : l[k]? = some t) :
    (l.set k t').countP P + (P t).toNat = l.countP P + (P t').toNat := by
  induction l generalizing k with
  | nil => simp at h
  | cons x l ih =>
    cases k with
    | zero =>
      simp only [List.getElem?_cons_zero, Option.some.injEq] at h
      subst h
      simp only [List.set_cons_zero, List.countP_cons]
      cases P x <;> cases P t' <;> simp
    | succ k =>
      simp only [List.getElem?_cons_succ] at h
      have := ih k h
      simp only [List.set_cons_succ, List.countP_cons] at this ⊢
      omega

theorem countP_ge_thread (P : Thread → Bool) (l : List Thread) (t : Thread) (h : t ∈ l) :
    (P t).toNat ≤ l.countP P := by
  cases hp : P t with
  | false => simp
  | true =>
    have : 0 < l.countP P := List.countP_pos_iff.mpr ⟨t, h, hp⟩
    simpa using this

theorem countP_real_split (l : List Thread) :
    l.countP Thread.real_registered + l.countP Thread.real_unregistered
      = l.countP Thread.real := by
  induction l with
  | nil => rfl
  | cons x l ih =>
    simp only [List.countP_cons]
    have hx : (if Thread.real_registered x = true then 1 else 0) +
        (if Thread.real_unregistered x = true then 1 else 0) =
        (if Thread.real x = true then 1 else 0) := by
      simp only [Thread.real_registered, Thread.real_unregistered, Thread.real]
      rcases Bool.eq_false_or_eq_true x.is_dummy with hd | hd <;>
        rcases Bool.eq_false_or_eq_true x.pc.registered with hp | hp <;> simp [hd, hp]
    omega

theorem initial_reginv (s0 : State) (h0 : Initial s0)
    (hreset : s0.shared.registry.password_count = 0) (hw : s0.shared.registry.WellSized) :
    RegInv s0 s0 := by
  refine ⟨hw, by omega, rfl, rfl, ?_⟩
  intro t ht
  have hpc := (h0.2.2.2.2 t ht).1
  refine ⟨fun _ => by rw [hpc]; rfl, fun _ hr => ?_, by rw [hpc]; decide⟩
  rw [hpc] at hr
  exact absurd hr (by decide)

theorem step_reginv (s0 s s' : State) (k rnd : Nat)
    (hcap : s0.threads.countP Thread.real ≤ 2 * MAX_THREADS) (hinv : RegInv s0 s)
    (hstep : step s k rnd = some s') : RegInv s0 s' := by
  obtain ⟨t, g', t', hk, hst, rfl⟩ := step_some s s' k rnd hstep
  obtain ⟨hw, hcount, hreal, herr, hall⟩ := hinv
  have hmem : t ∈ s.threads := List.getElem?_mem hk
  have hsplit := countP_real_split s.threads
  have hge := countP_ge_thread Thread.real_unregistered _ t hmem
  obtain ⟨hw', hok', hd, hmono, herr', hcnt'⟩ :=
    step_thread_registry s.shared g' t t' rnd hst hw (hall t hmem) (by omega)
  have e1 := countP_set_thread Thread.real_registered _ k t t' hk
  have e2 := countP_set_thread Thread.real _ k t t' hk
  have hr : Thread.real t' = Thread.real t := by simp only [Thread.real, hd]
  rw [hr] at e2
  refine ⟨hw', ?_, ?_, ?_, ?_⟩
  · show g'.registry.password_count ≤ (s.threads.set k t').countP Thread.real_registered
    omega
  · show (s.threads.set k t').countP Thread.real = _
    omega
  · show g'.stderr = _
    rw [herr', herr]
  · intro t2 ht2
    rcases List.mem_or_eq_of_mem_set ht2 with h | h
    · obtain ⟨a, b, c⟩ := hall t2 h
      exact ⟨a, fun x y => hmono _ (b x y), c⟩
    · rw [h]; exact hok'

theorem reachable_reginv (s0 s : State) (h0 : Initial s0)
    (hreset : s0.shared.registry.password_count = 0) (hw : s0.shared.registry.WellSized)
    (hcap : s0.threads.countP Thread.real ≤ 2 * MAX_THREADS) (hr : Reachable s0 s) :
    RegInv s0 s := by
  induction hr with
  | start => exact initial_reginv s0 h0 hreset hw
  | next k rnd _ hs ih => exact step_reginv s0 _ _ k rnd hcap ih hs

theorem scenario_real_count (num_readers num_writers : Nat) (hash : Nat → Nat) :
    (scenario_threads num_readers num_writers hash).countP Thread.real
      = num_readers + num_writers := by
  simp [scenario_threads, List.countP_append, List.countP_map, Thread.real, Function.comp_def]

/-- C6. Authorization under the driver's call discipline: in each of the three
test cases of `main` (3, 2), (5, 5), (1, 8), with the table reset to
`password_count = 0` before the threads start and whatever the thread
identities and the interleaving: every `add_password` call finds its identity
stored or finds room; for a real thread that has returned from `add_password`,
`is_authorized` on its identity yields 1; no thread takes the unauthorized
exit, and nothing is written to `stderr`. -/
theorem authorization_never_fails (num_readers num_writers : Nat) (hash : Nat → Nat)
    (s0 s : State) (hcase : (num_readers, num_writers) ∈ test_cases) (h0 : Initial s0)
    (hthreads : s0.threads = scenario_threads num_readers num_writers hash)
    (hreset : s0.shared.registry.password_count = 0) (hw : s0.shared.registry.WellSized)
    (hr : Reachable s0 s) :
    (∀ (k : Nat) (t : Thread), s.threads[k]? = some t → t.pc = Pc.reg_body →
      s.shared.registry.Stored t.hash ∨
      s.shared.registry.password_count < 2 * MAX_THREADS) ∧
    (∀ (k : Nat) (t : Thread), s.threads[k]? = some t → t.is_dummy = false →
      t.pc.registered = true → (is_authorized s.shared.registry t.hash).1 = 1) ∧
    (∀ (k : Nat) (t : Thread), s.threads[k]? = some t → t.pc ≠ Pc.unauthorized) ∧
    s.shared.stderr = s0.shared.stderr := by
  have hcap : s0.threads.countP Thread.real ≤ 2 * MAX_THREADS := by
    rw [hthreads, scenario_real_count]
    simp only [test_cases, List.mem_cons, Prod.mk.injEq, List.mem_singleton] at hcase
    have : MAX_THREADS = 9 := rfl
    rcases hcase with ⟨h1, h2⟩ | ⟨h1, h2⟩ | ⟨h1, h2⟩ | h <;> first | omega | simp at h
  obtain ⟨hw', hcount, hreal, herr, hall⟩ := reachable_reginv s0 s h0 hreset hw hcap hr
  refine ⟨?_, ?_, ?_, herr⟩
  · intro k t hk hpc
    right
    have hmem : t ∈ s.threads := List.getElem?_mem hk
    have hd : t.is_dummy = false := by
      cases hd : t.is_dummy with
      | false => rfl
      | true =>
        have := (hall t hmem).1 hd
        rw [hpc] at this
        exact absurd this (by decide)
    have hu : t.real_unregistered = true := by
      simp [Thread.real_unregistered, hd, hpc, Pc.registered]
    have hge := countP_ge_thread Thread.real_unregistered _ t hmem
    have hsplit := countP_real_split s.threads
    rw [hu] at hge
    simp only [Bool.toNat_true] at hge
    omega
  · intro k t hk hd hreg
    exact (is_authorized_one_iff _ _).mpr ((hall t (List.getElem?_mem hk)).2.1 hd hreg)
  · intro k t hk
    exact (hall t (List.getElem?_mem hk)).2.2

/-- Witness of C6: in test case (3, 2) the first real reader registers and
passes its first authorization check. -/
theorem authorization_never_fails_witness :
    run_schedule scenario_initial scenario_schedule = some scenario_state ∧
    (is_authorized scenario_state.shared.registry 100).1 = 1 ∧
    scenario_state.shared.stderr = [] := by
  have h := authorization_never_fails 3 2 (fun n => 100 + n) scenario_initial scenario_state
    (by decide) (by decide) rfl rfl (by decide)
    (reachable_of_run _ _ scenario_schedule (by decide))
  exact ⟨by decide, h.2.1 0 ⟨1, false, .reader, 100, .r_wait_count, 0⟩ (by decide) rfl rfl,
    h.2.2.2⟩

end SecureReaderWriter
